import Mathlib

/-!
Verification of the ts-broadcasting core against its natural-language
specification.  Each definition is a shallow embedding of a function in
`src/packages/ts-broadcasting/src/`:

* `ChannelManager` state machine  — `src/channels.ts` (ChannelManager)
* `AcknowledgmentManager`         — `src/channels.ts` (AcknowledgmentManager)
* `RateLimiter`                   — `src/index.ts` (RateLimiter)
* `SecurityManager.sanitize`      — `src/index.ts` (SecurityManager)
* `CircuitBreaker`                — `src/circuit-breaker.ts`
* `RedisAdapter` / relay handler  — `src/redis-adapter.ts`, `src/server.ts`
* `patternToRegex`                — `src/channels.ts`

JavaScript `Map`/`Set` state is modelled with total functions
`String → _` and duplicate-free lists; wall-clock times are `Nat`
(`Date.now()` values) except in the circuit breaker where the source
subtracts (`now - failureWindow`), which is modelled with `Int`.
-/

namespace TsBroadcasting

/-! ## Channel manager (`src/channels.ts`, class `ChannelManager`)

Presence-member values are opaque to the manager; the embedding is
polymorphic in the member type `μ`.  The result of the user-supplied
authorization callback (`false | true | PresenceMember`) is supplied as an
operation argument, since the callback is external user code. -/

inductive ChannelType where
  | publicType
  | privateType
  | presenceType
deriving DecidableEq, Repr

/-- JS `String.prototype.startsWith`, stated on the character list so that it
evaluates inside the kernel. -/
def strStartsWith (s p : String) : Bool :=
  p.data.isPrefixOf s.data

/-- `ChannelManager.getChannelType`: exact prefix match, `presence-` first. -/
def getChannelType (channelName : String) : ChannelType :=
  if strStartsWith channelName "presence-" then .presenceType
  else if strStartsWith channelName "private-" then .privateType
  else .publicType

/-- A registry entry (`Channel` / `PresenceChannel` in `src/types.ts`):
non-presence channels keep `members = []`, mirroring the absent field. -/
structure Channel (μ : Type) where
  name : String
  type : ChannelType
  subscribers : List String
  members : List (String × μ)
deriving DecidableEq, Repr

/-- JS `Set.add`: inserts only when absent. -/
def addElem (l : List String) (x : String) : List String :=
  if x ∈ l then l else l ++ [x]

/-- JS `Set.delete` / `Map.delete` on a duplicate-free list. -/
def removeElem (l : List String) (x : String) : List String :=
  l.filter (fun y => y ≠ x)

/-- JS `Map.set` on an association list keyed by socket id. -/
def setMember {μ : Type} (ms : List (String × μ)) (sid : String) (m : μ) :
    List (String × μ) :=
  if ms.any (fun p => p.1 = sid) then
    ms.map (fun p => if p.1 = sid then (sid, m) else p)
  else ms ++ [(sid, m)]

/-- JS `Map.delete` keyed by socket id. -/
def delMember {μ : Type} (ms : List (String × μ)) (sid : String) :
    List (String × μ) :=
  ms.filter (fun p => p.1 ≠ sid)

/-- Combined mutable state: the manager's `channels` map together with each
socket's `ws.data.channels` set (the two structures the invariants relate). -/
structure World (μ : Type) where
  channels : String → Option (Channel μ)
  socketChannels : String → List String

def World.init (μ : Type) : World μ :=
  { channels := fun _ => none, socketChannels := fun _ => [] }

/-- Pointwise update of a `String`-keyed map. -/
def updFun {α : Type} (f : String → α) (k : String) (v : α) : String → α :=
  fun k' => if k' = k then v else f k'

/-- `ChannelManager.getChannel`: create the entry (empty subscribers, and for
presence channels an empty members map) if absent, then return it. -/
def getChannel {μ : Type} (w : World μ) (channelName : String) :
    World μ × Channel μ :=
  match w.channels channelName with
  | some c => (w, c)
  | none =>
      let c : Channel μ :=
        { name := channelName, type := getChannelType channelName,
          subscribers := [], members := [] }
      ({ w with channels := updFun w.channels channelName (some c) }, c)

/-- Result of the authorization callback: `false`, `true`, or a presence
member object (`typeof authorized === 'object'`). -/
inductive AuthResult (μ : Type) where
  | denied
  | allowedTrue
  | memberValue (m : μ)
deriving DecidableEq, Repr

/-- The tail of `ChannelManager.subscribe` (lines 87-91): add the socket to
the channel's subscriber set and the channel to the socket's channel set. -/
def commitSubscribe {μ : Type} (w : World μ) (sid channelName : String) :
    World μ :=
  { channels := updFun w.channels channelName
      ((w.channels channelName).map
        (fun c => { c with subscribers := addElem c.subscribers sid })),
    socketChannels := updFun w.socketChannels sid
      (addElem (w.socketChannels sid) channelName) }

/-- `presenceChannel.members.set(ws.data.socketId, authorized)` (line 82). -/
def storePresenceMember {μ : Type} (w : World μ) (sid channelName : String)
    (m : μ) : World μ :=
  { w with
      channels := updFun w.channels channelName
        ((w.channels channelName).map
          (fun c => { c with members := setMember c.members sid m })) }

/-- `ChannelManager.subscribe`.  `getChannel` runs first (creating the entry),
authorization is checked for non-public channels, a member object is stored
for presence channels, then the subscriber/channel links are added. -/
def subscribe {μ : Type} (w : World μ) (sid channelName : String)
    (auth : AuthResult μ) : World μ × Bool :=
  let wc := getChannel w channelName
  let w1 := wc.1
  let ch := wc.2
  if ch.type ≠ .publicType then
    match auth with
    | .denied => (w1, false)
    | .allowedTrue => (commitSubscribe w1 sid channelName, true)
    | .memberValue m =>
        let w2 :=
          if ch.type = .presenceType then storePresenceMember w1 sid channelName m
          else w1
        (commitSubscribe w2 sid channelName, true)
  else (commitSubscribe w1 sid channelName, true)

/-- `ChannelManager.unsubscribe`: no-op when the channel is absent; otherwise
remove both links, drop the presence member, and delete the entry when the
subscriber set has emptied. -/
def unsubscribe {μ : Type} (w : World μ) (sid channelName : String) :
    World μ :=
  match w.channels channelName with
  | none => w
  | some ch =>
      let subs := removeElem ch.subscribers sid
      let ch1 : Channel μ :=
        { ch with
            subscribers := subs,
            members :=
              if ch.type = .presenceType then delMember ch.members sid
              else ch.members }
      let w1 : World μ :=
        { channels := updFun w.channels channelName (some ch1),
          socketChannels := updFun w.socketChannels sid
            (removeElem (w.socketChannels sid) channelName) }
      if subs.isEmpty then
        { w1 with channels := updFun w1.channels channelName none }
      else w1

/-- `ChannelManager.unsubscribeAll`: iterate over a snapshot of the socket's
channel set. -/
def unsubscribeAll {μ : Type} (w : World μ) (sid : String) : World μ :=
  (w.socketChannels sid).foldl (fun acc channelName => unsubscribe acc sid channelName) w

/-- One registry operation.  A connection close runs `unsubscribeAll`
(`BroadcastServer.handleClose`), so it is the same registry transition. -/
inductive Op (μ : Type) where
  | sub (sid channelName : String) (auth : AuthResult μ)
  | unsub (sid channelName : String)
  | unsubAll (sid : String)
deriving Repr

def applyOp {μ : Type} (w : World μ) : Op μ → World μ
  | .sub sid channelName auth => (subscribe w sid channelName auth).1
  | .unsub sid channelName => unsubscribe w sid channelName
  | .unsubAll sid => unsubscribeAll w sid

/-- Run a finite sequence of operations from the empty state. -/
def run (μ : Type) (ops : List (Op μ)) : World μ :=
  ops.foldl applyOp (World.init μ)

/-- Subscriber set of a channel, `[]` when the channel is not registered. -/
def subsOf {μ : Type} (w : World μ) (channelName : String) : List String :=
  match w.channels channelName with
  | some c => c.subscribers
  | none => []

/-- Invariant (i): `S ∈ C.subscribers ⇔ C ∈ S.channels`. -/
def symmetric {μ : Type} (w : World μ) : Prop :=
  ∀ sid channelName,
    sid ∈ subsOf w channelName ↔ channelName ∈ w.socketChannels sid

/-- Invariant (iii): every registered channel has a non-empty subscriber set. -/
def noEmptyChannels {μ : Type} (w : World μ) : Prop :=
  ∀ channelName c, w.channels channelName = some c → c.subscribers ≠ []

/-- Invariant (ii): on presence channels the member keys equal the
subscriber set. -/
def presenceParity {μ : Type} (w : World μ) : Prop :=
  ∀ channelName c, w.channels channelName = some c → c.type = .presenceType →
    ∀ sid, sid ∈ c.members.map Prod.fst ↔ sid ∈ c.subscribers

/-! ### Basic membership lemmas for the set/map models -/

theorem mem_addElem {l : List String} {x y : String} :
    x ∈ addElem l y ↔ x ∈ l ∨ x = y := by
  unfold addElem
  by_cases h : y ∈ l
  · simp only [if_pos h]
    constructor
    · exact Or.inl
    · rintro (hx | rfl) <;> [exact hx; exact h]
  · simp [if_neg h]

theorem mem_removeElem {l : List String} {x y : String} :
    x ∈ removeElem l y ↔ x ∈ l ∧ x ≠ y := by
  simp [removeElem]

theorem keys_setMember {μ : Type} {ms : List (String × μ)} {sid x : String}
    {m : μ} :
    x ∈ (setMember ms sid m).map Prod.fst ↔ x ∈ ms.map Prod.fst ∨ x = sid := by
  unfold setMember
  by_cases h : ms.any (fun p => p.1 = sid)
  · simp only [if_pos h, List.map_map, List.mem_map]
    constructor
    · rintro ⟨p, hp, hpx⟩
      by_cases hps : p.1 = sid
      · simp only [Function.comp, if_pos hps] at hpx
        exact Or.inr hpx.symm
      · simp only [Function.comp, if_neg hps] at hpx
        exact Or.inl ⟨p, hp, hpx⟩
    · rintro (⟨p, hp, hpx⟩ | rfl)
      · refine ⟨p, hp, ?_⟩
        by_cases hps : p.1 = sid
        · simp only [Function.comp, if_pos hps]
          rw [← hpx, hps]
        · simp only [Function.comp, if_neg hps]
          exact hpx
      · rcases List.any_eq_true.mp h with ⟨p, hp, hps⟩
        refine ⟨p, hp, ?_⟩
        simp only [Function.comp, if_pos (of_decide_eq_true hps)]
  · simp [if_neg h]

theorem keys_delMember {μ : Type} {ms : List (String × μ)} {sid x : String} :
    x ∈ (delMember ms sid).map Prod.fst ↔ x ∈ ms.map Prod.fst ∧ x ≠ sid := by
  unfold delMember
  simp only [List.mem_map, List.mem_filter]
  constructor
  · rintro ⟨p, ⟨hp, hps⟩, hpx⟩
    exact ⟨⟨p, hp, hpx⟩, by simpa [← hpx] using of_decide_eq_true hps⟩
  · rintro ⟨⟨p, hp, hpx⟩, hx⟩
    exact ⟨p, ⟨hp, decide_eq_true (by simpa [hpx] using hx)⟩, hpx⟩

@[simp] theorem updFun_eval {α : Type} (f : String → α) (k : String) (v : α)
    (k' : String) : updFun f k v k' = if k' = k then v else f k' := rfl

/-! ### Preservation of the registry invariants -/

theorem subsOf_getChannel {μ : Type} (w : World μ) (n m : String) :
    subsOf (getChannel w n).1 m = subsOf w m := by
  unfold getChannel subsOf
  cases h : w.channels n with
  | some c => rfl
  | none =>
      simp only [updFun_eval]
      by_cases hm : m = n
      · subst hm; simp [h]
      · simp [hm]

theorem socketChannels_getChannel {μ : Type} (w : World μ) (n : String) :
    (getChannel w n).1.socketChannels = w.socketChannels := by
  unfold getChannel
  cases h : w.channels n <;> rfl

theorem symmetric_getChannel {μ : Type} {w : World μ} (hs : symmetric w)
    (n : String) : symmetric (getChannel w n).1 := by
  intro sid m
  rw [subsOf_getChannel, socketChannels_getChannel]
  exact hs sid m

theorem getChannel_isSome {μ : Type} (w : World μ) (n : String) :
    ((getChannel w n).1.channels n).isSome := by
  unfold getChannel
  cases h : w.channels n with
  | some c => simp [h]
  | none => simp [updFun]

theorem getChannel_snd_type {μ : Type} (w : World μ) (n : String)
    (ht : ∀ c, w.channels n = some c → c.type = getChannelType n) :
    (getChannel w n).2.type = getChannelType n := by
  cases h : w.channels n with
  | some c =>
      have hx : (getChannel w n).2 = c := by simp [getChannel, h]
      rw [hx]
      exact ht c h
  | none =>
      have hx : (getChannel w n).2 =
          { name := n, type := getChannelType n,
            subscribers := [], members := [] } := by
        simp [getChannel, h]
      rw [hx]

theorem mem_subsOf_commitSubscribe {μ : Type} {w : World μ} {sid n : String}
    (hsome : (w.channels n).isSome) (s m : String) :
    s ∈ subsOf (commitSubscribe w sid n) m ↔
      s ∈ subsOf w m ∨ (m = n ∧ s = sid) := by
  rcases Option.isSome_iff_exists.mp hsome with ⟨c, hc⟩
  unfold commitSubscribe subsOf
  by_cases hm : m = n
  · subst hm
    simp [hc, mem_addElem]
  · simp [hm]

theorem mem_socketChannels_commitSubscribe {μ : Type} (w : World μ)
    (sid n s m : String) :
    m ∈ (commitSubscribe w sid n).socketChannels s ↔
      m ∈ w.socketChannels s ∨ (s = sid ∧ m = n) := by
  unfold commitSubscribe
  by_cases hsd : s = sid
  · subst hsd
    simp [mem_addElem]
  · simp [hsd]

theorem symmetric_commitSubscribe {μ : Type} {w : World μ} {sid n : String}
    (hs : symmetric w) (hsome : (w.channels n).isSome) :
    symmetric (commitSubscribe w sid n) := by
  intro s m
  rw [mem_subsOf_commitSubscribe hsome, mem_socketChannels_commitSubscribe]
  have hb := hs s m
  tauto

theorem subsOf_storePresenceMember {μ : Type} (w : World μ)
    (sid n : String) (mv : μ) (m : String) :
    subsOf (storePresenceMember w sid n mv) m = subsOf w m := by
  unfold storePresenceMember subsOf
  by_cases hm : m = n
  · subst hm
    cases h : w.channels m <;> simp [h]
  · simp [hm]

theorem socketChannels_storePresenceMember {μ : Type} (w : World μ)
    (sid n : String) (mv : μ) :
    (storePresenceMember w sid n mv).socketChannels = w.socketChannels := rfl

theorem isSome_storePresenceMember {μ : Type} (w : World μ)
    (sid n : String) (mv : μ) :
    ((storePresenceMember w sid n mv).channels n).isSome =
      (w.channels n).isSome := by
  unfold storePresenceMember
  cases h : w.channels n <;> simp [h, updFun]

theorem symmetric_storePresenceMember {μ : Type} {w : World μ}
    (hs : symmetric w) (sid n : String) (mv : μ) :
    symmetric (storePresenceMember w sid n mv) := by
  intro s m
  rw [subsOf_storePresenceMember, socketChannels_storePresenceMember]
  exact hs s m

theorem symmetric_subscribe {μ : Type} {w : World μ} (hs : symmetric w)
    (sid n : String) (a : AuthResult μ) :
    symmetric (subscribe w sid n a).1 := by
  have hs1 : symmetric (getChannel w n).1 := symmetric_getChannel hs n
  have hsome1 := getChannel_isSome w n
  unfold subscribe
  by_cases ht : (getChannel w n).2.type ≠ .publicType
  · simp only [if_pos ht]
    cases a with
    | denied => exact hs1
    | allowedTrue => exact symmetric_commitSubscribe hs1 hsome1
    | memberValue mv =>
        by_cases hp : (getChannel w n).2.type = .presenceType
        · simp only [if_pos hp]
          exact symmetric_commitSubscribe
            (symmetric_storePresenceMember hs1 sid n mv)
            (by rw [isSome_storePresenceMember]; exact hsome1)
        · simp only [if_neg hp]
          exact symmetric_commitSubscribe hs1 hsome1
  · simp only [if_neg ht]
    exact symmetric_commitSubscribe hs1 hsome1

theorem channels_unsubscribe {μ : Type} (w : World μ) (sid n m : String) :
    (unsubscribe w sid n).channels m =
      match w.channels n with
      | none => w.channels m
      | some ch =>
          if m = n then
            (if (removeElem ch.subscribers sid).isEmpty then none
             else some
               { ch with
                   subscribers := removeElem ch.subscribers sid,
                   members :=
                     if ch.type = .presenceType then delMember ch.members sid
                     else ch.members })
          else w.channels m := by
  unfold unsubscribe
  cases hc : w.channels n with
  | none => rfl
  | some ch =>
      by_cases he : (removeElem ch.subscribers sid).isEmpty <;>
        by_cases hm : m = n <;>
          simp [he, hm, updFun]

theorem socketChannels_unsubscribe {μ : Type} (w : World μ) (sid n s : String) :
    (unsubscribe w sid n).socketChannels s =
      match w.channels n with
      | none => w.socketChannels s
      | some _ =>
          if s = sid then removeElem (w.socketChannels sid) n
          else w.socketChannels s := by
  unfold unsubscribe
  cases hc : w.channels n with
  | none => rfl
  | some ch =>
      by_cases he : (removeElem ch.subscribers sid).isEmpty <;>
        by_cases hsd : s = sid <;>
          simp [he, hsd, updFun]

theorem mem_subsOf_iff_isSome {μ : Type} {w : World μ} {s m : String}
    (h : s ∈ subsOf w m) : (w.channels m).isSome := by
  unfold subsOf at h
  cases hc : w.channels m with
  | some c => rfl
  | none =>
      rw [hc] at h
      exact absurd h (by simp)

theorem mem_subsOf_unsubscribe {μ : Type} (w : World μ) (sid n s m : String) :
    s ∈ subsOf (unsubscribe w sid n) m ↔
      s ∈ subsOf w m ∧ ¬(m = n ∧ s = sid) ∧
        ¬(m = n ∧ removeElem (subsOf w n) sid = []) := by
  unfold subsOf
  rw [channels_unsubscribe]
  cases hc : w.channels n with
  | none =>
      by_cases hm : m = n
      · subst hm
        rw [hc]
        simp [removeElem]
      · simp [hm]
  | some ch =>
      by_cases hm : m = n
      · subst hm
        rw [hc]
        by_cases he : (removeElem ch.subscribers sid).isEmpty
        · have he2 : removeElem ch.subscribers sid = [] :=
            List.isEmpty_iff.mp he
          simp [he2, mem_removeElem]
        · have he2 : removeElem ch.subscribers sid ≠ [] := by
            intro hx
            exact he (by rw [hx]; rfl)
          simp [he, he2, mem_removeElem]
      · simp [hm]

theorem mem_socketChannels_unsubscribe {μ : Type} (w : World μ)
    (sid n s m : String) :
    m ∈ (unsubscribe w sid n).socketChannels s ↔
      m ∈ w.socketChannels s ∧
        ¬(s = sid ∧ m = n ∧ (w.channels n).isSome) := by
  rw [socketChannels_unsubscribe]
  cases hc : w.channels n with
  | none => simp
  | some ch =>
      by_cases hsd : s = sid
      · rw [hsd]
        simp [mem_removeElem]
      · simp [hsd]

theorem symmetric_unsubscribe {μ : Type} {w : World μ} (hs : symmetric w)
    (sid n : String) : symmetric (unsubscribe w sid n) := by
  intro s m
  rw [mem_subsOf_unsubscribe, mem_socketChannels_unsubscribe]
  have hb := hs s m
  constructor
  · rintro ⟨hmem, hns, _⟩
    refine ⟨hb.mp hmem, ?_⟩
    rintro ⟨hsd, hmn, _⟩
    exact hns ⟨hmn, hsd⟩
  · rintro ⟨hmem, hng⟩
    have hsub : s ∈ subsOf w m := hb.mpr hmem
    have hsome : (w.channels m).isSome := mem_subsOf_iff_isSome hsub
    refine ⟨hsub, ?_, ?_⟩
    · rintro ⟨hmn, hsd⟩
      exact hng ⟨hsd, hmn, by rw [← hmn]; exact hsome⟩
    · rintro ⟨hmn, hrm⟩
      by_cases hsd : s = sid
      · exact hng ⟨hsd, hmn, by rw [← hmn]; exact hsome⟩
      · have : s ∈ removeElem (subsOf w n) sid :=
          mem_removeElem.mpr ⟨by rw [← hmn]; exact hsub, hsd⟩
        rw [hrm] at this
        exact absurd this (by simp)

theorem symmetric_foldl_unsubscribe {μ : Type} (sid : String)
    (l : List String) :
    ∀ w : World μ, symmetric w →
      symmetric (l.foldl (fun acc c => unsubscribe acc sid c) w) := by
  induction l with
  | nil => intro w hw; exact hw
  | cons c rest ih =>
      intro w hw
      exact ih _ (symmetric_unsubscribe hw sid c)

theorem symmetric_applyOp {μ : Type} {w : World μ} (hs : symmetric w)
    (op : Op μ) : symmetric (applyOp w op) := by
  cases op with
  | sub sid n a => exact symmetric_subscribe hs sid n a
  | unsub sid n => exact symmetric_unsubscribe hs sid n
  | unsubAll sid => exact symmetric_foldl_unsubscribe sid _ w hs

/-! ### Stored channel types match the name prefix -/

/-- Every registered channel's stored `type` is the one derived from its
name prefix (it is only ever set by `getChannel`). -/
def typesOK {μ : Type} (w : World μ) : Prop :=
  ∀ n c, w.channels n = some c → c.type = getChannelType n

theorem channels_commitSubscribe {μ : Type} (w : World μ) (sid n k : String) :
    (commitSubscribe w sid n).channels k =
      if k = n then
        (w.channels n).map
          (fun c => { c with subscribers := addElem c.subscribers sid })
      else w.channels k := rfl

theorem channels_storePresenceMember {μ : Type} (w : World μ)
    (sid n : String) (mv : μ) (k : String) :
    (storePresenceMember w sid n mv).channels k =
      if k = n then
        (w.channels n).map
          (fun c => { c with members := setMember c.members sid mv })
      else w.channels k := rfl

theorem channels_getChannel {μ : Type} (w : World μ) (n k : String) :
    (getChannel w n).1.channels k =
      match w.channels n with
      | some _ => w.channels k
      | none =>
          if k = n then
            some { name := n, type := getChannelType n,
                   subscribers := [], members := [] }
          else w.channels k := by
  cases hc : w.channels n <;> simp [getChannel, hc, updFun]

theorem typesOK_getChannel {μ : Type} {w : World μ} (hty : typesOK w)
    (n : String) : typesOK (getChannel w n).1 := by
  intro k c hkc
  rw [channels_getChannel] at hkc
  cases hc : w.channels n with
  | some c0 =>
      rw [hc] at hkc
      exact hty k c hkc
  | none =>
      rw [hc] at hkc
      by_cases hk : k = n
      · rw [if_pos hk] at hkc
        cases hkc
        rw [hk]
      · rw [if_neg hk] at hkc
        exact hty k c hkc

theorem typesOK_commitSubscribe {μ : Type} {w : World μ} (hty : typesOK w)
    (sid n : String) : typesOK (commitSubscribe w sid n) := by
  intro k c hkc
  rw [channels_commitSubscribe] at hkc
  by_cases hk : k = n
  · rw [if_pos hk] at hkc
    cases hw : w.channels n with
    | none => rw [hw] at hkc; cases hkc
    | some c0 =>
        rw [hw, Option.map_some'] at hkc
        cases hkc
        rw [hk]
        exact hty n c0 hw
  · rw [if_neg hk] at hkc
    exact hty k c hkc

theorem typesOK_storePresenceMember {μ : Type} {w : World μ} (hty : typesOK w)
    (sid n : String) (mv : μ) : typesOK (storePresenceMember w sid n mv) := by
  intro k c hkc
  rw [channels_storePresenceMember] at hkc
  by_cases hk : k = n
  · rw [if_pos hk] at hkc
    cases hw : w.channels n with
    | none => rw [hw] at hkc; cases hkc
    | some c0 =>
        rw [hw, Option.map_some'] at hkc
        cases hkc
        rw [hk]
        exact hty n c0 hw
  · rw [if_neg hk] at hkc
    exact hty k c hkc

theorem typesOK_subscribe {μ : Type} {w : World μ} (hty : typesOK w)
    (sid n : String) (a : AuthResult μ) : typesOK (subscribe w sid n a).1 := by
  have h1 := typesOK_getChannel hty n
  unfold subscribe
  by_cases hb : (getChannel w n).2.type ≠ .publicType
  · simp only [if_pos hb]
    cases a with
    | denied => exact h1
    | allowedTrue => exact typesOK_commitSubscribe h1 sid n
    | memberValue mv =>
        by_cases hp : (getChannel w n).2.type = .presenceType
        · simp only [if_pos hp]
          exact typesOK_commitSubscribe (typesOK_storePresenceMember h1 sid n mv) sid n
        · simp only [if_neg hp]
          exact typesOK_commitSubscribe h1 sid n
  · simp only [if_neg hb]
    exact typesOK_commitSubscribe h1 sid n

theorem typesOK_unsubscribe {μ : Type} {w : World μ} (hty : typesOK w)
    (sid n : String) : typesOK (unsubscribe w sid n) := by
  intro k c hkc
  rw [channels_unsubscribe] at hkc
  cases hc : w.channels n with
  | none =>
      simp only [hc] at hkc
      exact hty k c hkc
  | some ch =>
      simp only [hc] at hkc
      by_cases hk : k = n
      · rw [if_pos hk] at hkc
        by_cases he : (removeElem ch.subscribers sid).isEmpty
        · rw [if_pos he] at hkc
          cases hkc
        · rw [if_neg he] at hkc
          cases hkc
          rw [hk]
          exact hty n ch hc
      · rw [if_neg hk] at hkc
        exact hty k c hkc

theorem typesOK_foldl_unsubscribe {μ : Type} (sid : String) (l : List String) :
    ∀ w : World μ, typesOK w →
      typesOK (l.foldl (fun acc c => unsubscribe acc sid c) w) := by
  induction l with
  | nil => intro w hw; exact hw
  | cons c rest ih =>
      intro w hw
      exact ih _ (typesOK_unsubscribe hw sid c)

theorem typesOK_applyOp {μ : Type} {w : World μ} (hty : typesOK w)
    (op : Op μ) : typesOK (applyOp w op) := by
  cases op with
  | sub sid n a => exact typesOK_subscribe hty sid n a
  | unsub sid n => exact typesOK_unsubscribe hty sid n
  | unsubAll sid => exact typesOK_foldl_unsubscribe sid _ w hty

/-! ### No-empty-channel invariant (conditional on no denied subscriptions) -/

theorem addElem_ne_nil (l : List String) (x : String) : addElem l x ≠ [] := by
  unfold addElem
  by_cases h : x ∈ l
  · rw [if_pos h]
    intro hnil
    rw [hnil] at h
    exact absurd h (by simp)
  · rw [if_neg h]
    simp

theorem noEmpty_commitSubscribe {μ : Type} {w : World μ} {sid n : String}
    (h : ∀ k c, w.channels k = some c → k ≠ n → c.subscribers ≠ []) :
    noEmptyChannels (commitSubscribe w sid n) := by
  intro k c hkc
  rw [channels_commitSubscribe] at hkc
  by_cases hk : k = n
  · rw [if_pos hk] at hkc
    cases hw : w.channels n with
    | none => rw [hw] at hkc; cases hkc
    | some c0 =>
        rw [hw, Option.map_some'] at hkc
        cases hkc
        exact addElem_ne_nil _ _
  · rw [if_neg hk] at hkc
    exact h k c hkc hk

theorem getChannel_channels_other {μ : Type} (w : World μ) {n k : String}
    (hk : k ≠ n) : (getChannel w n).1.channels k = w.channels k := by
  rw [channels_getChannel]
  cases w.channels n with
  | some c0 => rfl
  | none => rw [if_neg hk]

theorem storePresenceMember_channels_other {μ : Type} (w : World μ)
    {sid n : String} (mv : μ) {k : String} (hk : k ≠ n) :
    (storePresenceMember w sid n mv).channels k = w.channels k := by
  rw [channels_storePresenceMember, if_neg hk]

theorem noEmpty_subscribe {μ : Type} {w : World μ} (hne : noEmptyChannels w)
    (hty : typesOK w) (sid n : String) (a : AuthResult μ)
    (hop : a = .denied → getChannelType n = .publicType) :
    noEmptyChannels (subscribe w sid n a).1 := by
  have htype2 : (getChannel w n).2.type = getChannelType n :=
    getChannel_snd_type w n (fun c h => hty n c h)
  have hother : ∀ k c, (getChannel w n).1.channels k = some c → k ≠ n →
      c.subscribers ≠ [] := by
    intro k c hkc hk
    rw [getChannel_channels_other w hk] at hkc
    exact hne k c hkc
  unfold subscribe
  by_cases hb : (getChannel w n).2.type ≠ .publicType
  · simp only [if_pos hb]
    cases a with
    | denied =>
        rw [htype2, hop rfl] at hb
        exact absurd rfl hb
    | allowedTrue => exact noEmpty_commitSubscribe hother
    | memberValue mv =>
        by_cases hp : (getChannel w n).2.type = .presenceType
        · simp only [if_pos hp]
          refine noEmpty_commitSubscribe ?_
          intro k c hkc hk
          rw [storePresenceMember_channels_other _ mv hk] at hkc
          exact hother k c hkc hk
        · simp only [if_neg hp]
          exact noEmpty_commitSubscribe hother
  · simp only [if_neg hb]
    exact noEmpty_commitSubscribe hother

theorem noEmpty_unsubscribe {μ : Type} {w : World μ} (hne : noEmptyChannels w)
    (sid n : String) : noEmptyChannels (unsubscribe w sid n) := by
  intro k c hkc
  rw [channels_unsubscribe] at hkc
  cases hc : w.channels n with
  | none =>
      simp only [hc] at hkc
      exact hne k c hkc
  | some ch =>
      simp only [hc] at hkc
      by_cases hk : k = n
      · rw [if_pos hk] at hkc
        by_cases he : (removeElem ch.subscribers sid).isEmpty
        · rw [if_pos he] at hkc
          cases hkc
        · rw [if_neg he] at hkc
          cases hkc
          intro hnil
          exact he (List.isEmpty_iff.mpr hnil)
      · rw [if_neg hk] at hkc
        exact hne k c hkc

theorem noEmpty_foldl_unsubscribe {μ : Type} (sid : String) (l : List String) :
    ∀ w : World μ, noEmptyChannels w →
      noEmptyChannels (l.foldl (fun acc c => unsubscribe acc sid c) w) := by
  induction l with
  | nil => intro w hw; exact hw
  | cons c rest ih =>
      intro w hw
      exact ih _ (noEmpty_unsubscribe hw sid c)

/-- An operation that is not a denied subscription to a non-public channel. -/
def opNoDeniedNonPublic {μ : Type} : Op μ → Bool
  | .sub _ n .denied => decide (getChannelType n = .publicType)
  | _ => true

theorem noEmpty_applyOp {μ : Type} {w : World μ} (hne : noEmptyChannels w)
    (hty : typesOK w) (op : Op μ) (hop : opNoDeniedNonPublic op = true) :
    noEmptyChannels (applyOp w op) := by
  cases op with
  | sub sid n a =>
      refine noEmpty_subscribe hne hty sid n a ?_
      intro ha
      subst ha
      simp only [opNoDeniedNonPublic] at hop
      exact of_decide_eq_true hop
  | unsub sid n => exact noEmpty_unsubscribe hne sid n
  | unsubAll sid => exact noEmpty_foldl_unsubscribe sid _ w hne

/-! ### Presence parity (conditional on member objects for presence joins) -/

theorem parity_getChannel {μ : Type} {w : World μ} (hp : presenceParity w)
    (n : String) : presenceParity (getChannel w n).1 := by
  intro k c hkc htype s
  rw [channels_getChannel] at hkc
  cases hc : w.channels n with
  | some c0 =>
      rw [hc] at hkc
      exact hp k c hkc htype s
  | none =>
      rw [hc] at hkc
      by_cases hk : k = n
      · rw [if_pos hk] at hkc
        cases hkc
        simp
      · rw [if_neg hk] at hkc
        exact hp k c hkc htype s

theorem parity_commit_noStore {μ : Type} {w : World μ} {sid n : String}
    (hp : presenceParity w)
    (hnp : ∀ c, w.channels n = some c → c.type ≠ .presenceType) :
    presenceParity (commitSubscribe w sid n) := by
  intro k c hkc htype s
  rw [channels_commitSubscribe] at hkc
  by_cases hk : k = n
  · rw [if_pos hk] at hkc
    cases hw : w.channels n with
    | none => rw [hw] at hkc; cases hkc
    | some c0 =>
        rw [hw, Option.map_some'] at hkc
        cases hkc
        exact absurd htype (hnp c0 hw)
  · rw [if_neg hk] at hkc
    exact hp k c hkc htype s

theorem parity_store_commit {μ : Type} {w : World μ} {sid n : String}
    (hp : presenceParity w) (mv : μ) :
    presenceParity (commitSubscribe (storePresenceMember w sid n mv) sid n) := by
  intro k c hkc htype s
  rw [channels_commitSubscribe] at hkc
  by_cases hk : k = n
  · rw [if_pos hk, channels_storePresenceMember, if_pos rfl] at hkc
    cases hw : w.channels n with
    | none => rw [hw] at hkc; cases hkc
    | some c0 =>
        rw [hw, Option.map_some', Option.map_some'] at hkc
        cases hkc
        simp only at htype ⊢
        rw [keys_setMember, mem_addElem]
        constructor
        · rintro (hm | rfl)
          · exact Or.inl ((hp n c0 hw htype s).mp hm)
          · exact Or.inr rfl
        · rintro (hm | rfl)
          · exact Or.inl ((hp n c0 hw htype s).mpr hm)
          · exact Or.inr rfl
  · rw [if_neg hk, channels_storePresenceMember, if_neg hk] at hkc
    exact hp k c hkc htype s

theorem parity_subscribe {μ : Type} {w : World μ} (hp : presenceParity w)
    (hty : typesOK w) (sid n : String) (a : AuthResult μ)
    (hop : a = .allowedTrue → getChannelType n ≠ .presenceType) :
    presenceParity (subscribe w sid n a).1 := by
  have hp1 : presenceParity (getChannel w n).1 := parity_getChannel hp n
  have hty1 : typesOK (getChannel w n).1 := typesOK_getChannel hty n
  have htype2 : (getChannel w n).2.type = getChannelType n :=
    getChannel_snd_type w n (fun c h => hty n c h)
  unfold subscribe
  by_cases hb : (getChannel w n).2.type ≠ .publicType
  · simp only [if_pos hb]
    cases a with
    | denied => exact hp1
    | allowedTrue =>
        refine parity_commit_noStore hp1 ?_
        intro c hc
        rw [hty1 n c hc]
        exact hop rfl
    | memberValue mv =>
        by_cases hpr : (getChannel w n).2.type = .presenceType
        · simp only [if_pos hpr]
          exact parity_store_commit hp1 mv
        · simp only [if_neg hpr]
          refine parity_commit_noStore hp1 ?_
          intro c hc
          rw [hty1 n c hc, ← htype2]
          exact hpr
  · simp only [if_neg hb]
    refine parity_commit_noStore hp1 ?_
    intro c hc
    rw [hty1 n c hc, ← htype2]
    rw [not_not] at hb
    rw [hb]
    intro hx
    cases hx

theorem parity_unsubscribe {μ : Type} {w : World μ} (hp : presenceParity w)
    (sid n : String) : presenceParity (unsubscribe w sid n) := by
  intro k c hkc htype s
  rw [channels_unsubscribe] at hkc
  cases hc : w.channels n with
  | none =>
      simp only [hc] at hkc
      exact hp k c hkc htype s
  | some ch =>
      simp only [hc] at hkc
      by_cases hk : k = n
      · rw [if_pos hk] at hkc
        by_cases he : (removeElem ch.subscribers sid).isEmpty
        · rw [if_pos he] at hkc
          cases hkc
        · rw [if_neg he] at hkc
          cases hkc
          simp only at htype ⊢
          rw [if_pos htype]
          rw [keys_delMember, mem_removeElem]
          constructor
          · rintro ⟨hm, hs⟩
            exact ⟨(hp n ch hc htype s).mp hm, hs⟩
          · rintro ⟨hm, hs⟩
            exact ⟨(hp n ch hc htype s).mpr hm, hs⟩
      · rw [if_neg hk] at hkc
        exact hp k c hkc htype s

theorem parity_foldl_unsubscribe {μ : Type} (sid : String) (l : List String) :
    ∀ w : World μ, presenceParity w →
      presenceParity (l.foldl (fun acc c => unsubscribe acc sid c) w) := by
  induction l with
  | nil => intro w hw; exact hw
  | cons c rest ih =>
      intro w hw
      exact ih _ (parity_unsubscribe hw sid c)

/-- An operation that is not a presence subscription whose authorizer
returned the boolean `true`. -/
def opPresenceGetsMember {μ : Type} : Op μ → Bool
  | .sub _ n .allowedTrue => !(decide (getChannelType n = .presenceType))
  | _ => true

theorem parity_applyOp {μ : Type} {w : World μ} (hp : presenceParity w)
    (hty : typesOK w) (op : Op μ) (hop : opPresenceGetsMember op = true) :
    presenceParity (applyOp w op) := by
  cases op with
  | sub sid n a =>
      refine parity_subscribe hp hty sid n a ?_
      intro ha
      subst ha
      simp only [opPresenceGetsMember, Bool.not_eq_eq_eq_not, Bool.not_true,
        decide_eq_false_iff_not] at hop
      exact hop
  | unsub sid n => exact parity_unsubscribe hp sid n
  | unsubAll sid => exact parity_foldl_unsubscribe sid _ w hp

/-! ### Run-level invariants and the registry claims -/

theorem symmetric_foldl {μ : Type} (ops : List (Op μ)) :
    ∀ w : World μ, symmetric w → symmetric (ops.foldl applyOp w) := by
  induction ops with
  | nil => intro w hw; exact hw
  | cons op rest ih =>
      intro w hw
      exact ih _ (symmetric_applyOp hw op)

theorem typesOK_foldl {μ : Type} (ops : List (Op μ)) :
    ∀ w : World μ, typesOK w → typesOK (ops.foldl applyOp w) := by
  induction ops with
  | nil => intro w hw; exact hw
  | cons op rest ih =>
      intro w hw
      exact ih _ (typesOK_applyOp hw op)

theorem typesOK_run {μ : Type} (ops : List (Op μ)) : typesOK (run μ ops) := by
  refine typesOK_foldl ops _ ?_
  intro n c hc
  cases hc

theorem noEmpty_foldl {μ : Type} (ops : List (Op μ)) :
    ∀ w : World μ, noEmptyChannels w → typesOK w →
      ops.all opNoDeniedNonPublic = true →
      noEmptyChannels (ops.foldl applyOp w) := by
  induction ops with
  | nil => intro w hw _ _; exact hw
  | cons op rest ih =>
      intro w hw hty hall
      rw [List.all_cons, Bool.and_eq_true] at hall
      exact ih _ (noEmpty_applyOp hw hty op hall.1) (typesOK_applyOp hty op)
        hall.2

theorem parity_foldl {μ : Type} (ops : List (Op μ)) :
    ∀ w : World μ, presenceParity w → typesOK w →
      ops.all opPresenceGetsMember = true →
      presenceParity (ops.foldl applyOp w) := by
  induction ops with
  | nil => intro w hw _ _; exact hw
  | cons op rest ih =>
      intro w hw hty hall
      rw [List.all_cons, Bool.and_eq_true] at hall
      exact ih _ (parity_applyOp hw hty op hall.1) (typesOK_applyOp hty op)
        hall.2

/-- C5: For every socket S and every channel C, S is a member of C's
subscriber set if and only if C is a member of S's channel set, after every
finite sequence of subscribe, unsubscribe and unsubscribeAll operations
(including denied subscriptions and unsubscribes from channels not in the
registry); connection close is `unsubscribeAll`. -/
theorem membership_symmetry (μ : Type) (ops : List (Op μ))
    (sid channelName : String) :
    sid ∈ subsOf (run μ ops) channelName ↔
      channelName ∈ (run μ ops).socketChannels sid := by
  refine symmetric_foldl ops _ ?_ sid channelName
  intro s m
  simp [World.init, subsOf]

/-- C3 (counterexample): a single denied subscription to the private channel
"private-room" leaves an entry with an empty subscriber set in the registry,
so the claimed invariant fails after this one-operation sequence. -/
theorem denied_subscription_leaves_empty_channel :
    (run Unit [Op.sub "socket-1" "private-room" AuthResult.denied]).channels
        "private-room" =
      some { name := "private-room", type := .privateType,
             subscribers := [], members := [] } ∧
    ¬ noEmptyChannels
        (run Unit [Op.sub "socket-1" "private-room" AuthResult.denied]) := by
  constructor
  · decide
  · intro h
    refine h "private-room"
      { name := "private-room", type := .privateType,
        subscribers := [], members := [] } (by decide) rfl

/-- C3 (amended): after every finite sequence of subscribe, unsubscribe,
unsubscribeAll and connection-close operations in which no non-public
subscription is denied, every channel present in the registry has a
non-empty subscriber set.  (A denied private/presence subscription leaves an
empty entry, because `getChannel` creates it before authorization runs.) -/
theorem no_empty_channel_without_denials (μ : Type) (ops : List (Op μ))
    (h : ops.all opNoDeniedNonPublic = true) :
    noEmptyChannels (run μ ops) := by
  refine noEmpty_foldl ops _ ?_ ?_ h
  · intro n c hc
    cases hc
  · intro n c hc
    cases hc

/-- C3 (witness). -/
theorem no_empty_channel_without_denials_witness :
    ([Op.sub "s1" "news" (AuthResult.allowedTrue (μ := Unit)),
      Op.unsub "s1" "news"].all opNoDeniedNonPublic = true) ∧
    noEmptyChannels
      (run Unit [Op.sub "s1" "news" AuthResult.allowedTrue,
        Op.unsub "s1" "news"]) :=
  ⟨by decide,
   no_empty_channel_without_denials Unit
     [Op.sub "s1" "news" AuthResult.allowedTrue, Op.unsub "s1" "news"]
     (by decide)⟩

/-- C4 (counterexample): a presence subscription whose authorizer returns
the boolean `true` adds the socket to the subscriber set without a members
entry, so member keys and subscribers differ. -/
theorem presence_boolean_true_breaks_parity :
    (run Unit [Op.sub "socket-1" "presence-room" AuthResult.allowedTrue]).channels
        "presence-room" =
      some { name := "presence-room", type := .presenceType,
             subscribers := ["socket-1"], members := [] } ∧
    ¬ presenceParity
        (run Unit [Op.sub "socket-1" "presence-room" AuthResult.allowedTrue]) := by
  constructor
  · decide
  · intro h
    have hx := (h "presence-room"
      { name := "presence-room", type := .presenceType,
        subscribers := ["socket-1"], members := [] } (by decide) rfl
      "socket-1").mpr (by decide)
    exact absurd hx (by decide)

/-- C4 (amended): after every finite sequence of subscribe and unsubscribe
operations in which every presence-channel subscription's authorizer result
is a member object (never the boolean `true`), the key set of each presence
channel's members map equals its subscriber set.  When the authorizer
returns `true`, the socket joins `subscribers` with no `members` entry. -/
theorem presence_parity_with_member_objects (μ : Type) (ops : List (Op μ))
    (h : ops.all opPresenceGetsMember = true) :
    presenceParity (run μ ops) := by
  refine parity_foldl ops _ ?_ ?_ h
  · intro n c hc
    cases hc
  · intro n c hc
    cases hc

/-- C4 (witness). -/
theorem presence_parity_with_member_objects_witness :
    ([Op.sub "s1" "presence-room" (AuthResult.memberValue (37 : Nat)),
      Op.sub "s2" "presence-room" (AuthResult.memberValue 5)].all
        opPresenceGetsMember = true) ∧
    presenceParity
      (run Nat [Op.sub "s1" "presence-room" (AuthResult.memberValue 37),
        Op.sub "s2" "presence-room" (AuthResult.memberValue 5)]) :=
  ⟨by decide,
   presence_parity_with_member_objects Nat
     [Op.sub "s1" "presence-room" (AuthResult.memberValue 37),
      Op.sub "s2" "presence-room" (AuthResult.memberValue 5)]
     (by decide)⟩

/-! ## Acknowledgment manager (`src/channels.ts`, class `AcknowledgmentManager`)

The claims concern a single registered message, so the state carries that
message's `pendingAcks` entry, its scheduled timer (`timeouts`) as the
wall-clock instant the timer will fire, and the settlement of its promise.
Payloads are opaque (`δ`). -/

structure AckConfig where
  enabled : Bool
  timeout : Nat
  retryAttempts : Nat
deriving Repr, DecidableEq

/-- `PendingAck` of the source, minus the promise callbacks. -/
structure PendingAck (δ : Type) where
  messageId : String
  channel : String
  event : String
  data : δ
  socketId : String
  timestamp : Nat
  attempts : Nat
deriving Repr, DecidableEq

inductive AckOutcome where
  | resolved (value : Bool)
  | rejected (msg : String)
deriving Repr, DecidableEq

structure AckSt (δ : Type) where
  pending : Option (PendingAck δ)
  timerDeadline : Option Nat
  result : Option AckOutcome
deriving Repr, DecidableEq

/-- `AcknowledgmentManager.register` at wall time `now`: disabled mode
resolves immediately; otherwise the entry starts with `attempts = 1` and a
timer armed for `now + timeout`. -/
def ackRegister {δ : Type} (cfg : AckConfig) (messageId channel event : String)
    (d : δ) (socketId : String) (now : Nat) : AckSt δ :=
  if cfg.enabled = false then
    { pending := none, timerDeadline := none,
      result := some (.resolved true) }
  else
    { pending := some
        { messageId := messageId, channel := channel, event := event,
          data := d, socketId := socketId, timestamp := now, attempts := 1 },
      timerDeadline := some (now + cfg.timeout),
      result := none }

/-- `AcknowledgmentManager.acknowledge`: clears the timer and resolves, or
returns `false` when no entry is pending. -/
def ackAcknowledge {δ : Type} (st : AckSt δ) : AckSt δ × Bool :=
  match st.pending with
  | none => (st, false)
  | some _ =>
      ({ pending := none, timerDeadline := none,
         result := some (.resolved true) }, true)

/-- The rejection message built in `handleTimeout`. -/
def ackRejectionMessage (attempts : Nat) : String :=
  "Message acknowledgment timeout after " ++ toString attempts ++ " attempts"

/-- `AcknowledgmentManager.handleTimeout`, run when the armed timer fires
(at wall time `st.timerDeadline`): below the retry budget it increments
`attempts`, refreshes `timestamp` and re-arms the timer for another
`timeout` ms, leaving the payload intact; at the budget it rejects the
promise and deletes the entry and the timer. -/
def fireTimeout {δ : Type} (cfg : AckConfig) (st : AckSt δ) : AckSt δ :=
  match st.timerDeadline with
  | none => st
  | some now =>
      match st.pending with
      | none => { st with timerDeadline := none }
      | some p =>
          if p.attempts < cfg.retryAttempts then
            { pending := some
                { p with attempts := p.attempts + 1, timestamp := now },
              timerDeadline := some (now + cfg.timeout),
              result := st.result }
          else
            { pending := none, timerDeadline := none,
              result := some (.rejected (ackRejectionMessage p.attempts)) }

/-- `k` consecutive timer firings with no acknowledgment in between. -/
def fireTimeouts {δ : Type} (cfg : AckConfig) : Nat → AckSt δ → AckSt δ
  | 0, st => st
  | k + 1, st => fireTimeout cfg (fireTimeouts cfg k st)

theorem fireTimeouts_schedule {δ : Type} (cfg : AckConfig)
    (messageId channel event : String) (d : δ) (socketId : String) (t0 : Nat)
    (hen : cfg.enabled = true) :
    ∀ k, k < cfg.retryAttempts →
      fireTimeouts cfg k (ackRegister cfg messageId channel event d socketId t0) =
        { pending := some
            { messageId := messageId, channel := channel, event := event,
              data := d, socketId := socketId,
              timestamp := t0 + k * cfg.timeout, attempts := k + 1 },
          timerDeadline := some (t0 + (k + 1) * cfg.timeout),
          result := none } := by
  intro k
  induction k with
  | zero =>
      intro _
      simp [fireTimeouts, ackRegister, hen]
  | succ k ih =>
      intro hk
      have hk1 : k < cfg.retryAttempts := Nat.lt_of_succ_lt hk
      show fireTimeout cfg (fireTimeouts cfg k _) = _
      rw [ih hk1]
      have hattempts : k + 1 < cfg.retryAttempts := hk
      simp only [fireTimeout, if_pos hattempts]
      have h1 : t0 + (k + 1) * cfg.timeout + cfg.timeout =
          t0 + (k + 1 + 1) * cfg.timeout := by ring
      rw [h1]

/-- C7: for a message registered in enabled mode that is never acknowledged,
each of the first `retryAttempts - 1` timer firings increments the attempt
counter, refreshes the timestamp and re-arms the timer for another `timeout`
ms with the payload intact; the timer that fires at wall time
`t0 + retryAttempts * timeout` (the cap) rejects the promise with a message
containing "timeout after N attempts" (N = retryAttempts) and removes the
entry from the pending table. -/
theorem ack_retry_then_timeout {δ : Type} (cfg : AckConfig)
    (messageId channel event : String) (d : δ) (socketId : String) (t0 : Nat)
    (hen : cfg.enabled = true) (hr : 1 ≤ cfg.retryAttempts) :
    (∀ k, k < cfg.retryAttempts →
      fireTimeouts cfg k (ackRegister cfg messageId channel event d socketId t0) =
        { pending := some
            { messageId := messageId, channel := channel, event := event,
              data := d, socketId := socketId,
              timestamp := t0 + k * cfg.timeout, attempts := k + 1 },
          timerDeadline := some (t0 + (k + 1) * cfg.timeout),
          result := none }) ∧
    (fireTimeouts cfg (cfg.retryAttempts - 1)
        (ackRegister cfg messageId channel event d socketId t0)).timerDeadline =
      some (t0 + cfg.retryAttempts * cfg.timeout) ∧
    fireTimeouts cfg cfg.retryAttempts
        (ackRegister cfg messageId channel event d socketId t0) =
      { pending := none, timerDeadline := none,
        result := some (.rejected (ackRejectionMessage cfg.retryAttempts)) } ∧
    ("timeout after " ++ toString cfg.retryAttempts ++ " attempts").data <:+:
      (ackRejectionMessage cfg.retryAttempts).data := by
  obtain ⟨r, hrr⟩ : ∃ r, cfg.retryAttempts = r + 1 :=
    ⟨cfg.retryAttempts - 1, (Nat.succ_pred_eq_of_pos hr).symm⟩
  have hsched := fireTimeouts_schedule cfg messageId channel event d socketId
    t0 hen
  refine ⟨hsched, ?_, ?_, ?_⟩
  · rw [hsched (cfg.retryAttempts - 1) (by omega)]
    have : cfg.retryAttempts - 1 + 1 = cfg.retryAttempts := by omega
    rw [this]
  · have hlast := hsched r (by omega)
    rw [hrr]
    show fireTimeout cfg (fireTimeouts cfg r _) = _
    rw [hlast]
    have hnolt : ¬ (r + 1 < cfg.retryAttempts) := by omega
    simp only [fireTimeout, if_neg hnolt]
  · have hdec : ("Message acknowledgment timeout after " : String) =
        "Message acknowledgment " ++ "timeout after " := by decide
    have hsuffix :
        ("timeout after " ++ toString cfg.retryAttempts ++ " attempts").data <:+
          (ackRejectionMessage cfg.retryAttempts).data := by
      refine ⟨("Message acknowledgment " : String).data, ?_⟩
      unfold ackRejectionMessage
      rw [hdec]
      simp [String.data_append]
    exact hsuffix.isInfix

/-- C7 (witness): the default configuration (`timeout = 5000`,
`retryAttempts = 3`) with a registration at time 0. -/
theorem ack_retry_then_timeout_witness :
    ((⟨true, 5000, 3⟩ : AckConfig).enabled = true ∧
      1 ≤ (⟨true, 5000, 3⟩ : AckConfig).retryAttempts) ∧
    ((∀ k, k < (3 : Nat) →
      fireTimeouts ⟨true, 5000, 3⟩ k
          (ackRegister ⟨true, 5000, 3⟩ "m1" "news" "ev" (42 : Nat) "s1" 0) =
        { pending := some
            { messageId := "m1", channel := "news", event := "ev",
              data := 42, socketId := "s1",
              timestamp := 0 + k * 5000, attempts := k + 1 },
          timerDeadline := some (0 + (k + 1) * 5000),
          result := none }) ∧
    (fireTimeouts ⟨true, 5000, 3⟩ (3 - 1)
        (ackRegister ⟨true, 5000, 3⟩ "m1" "news" "ev" (42 : Nat) "s1" 0)).timerDeadline =
      some (0 + 3 * 5000) ∧
    fireTimeouts ⟨true, 5000, 3⟩ 3
        (ackRegister ⟨true, 5000, 3⟩ "m1" "news" "ev" (42 : Nat) "s1" 0) =
      { pending := none, timerDeadline := none,
        result := some (.rejected (ackRejectionMessage 3)) } ∧
    ("timeout after " ++ toString (3 : Nat) ++ " attempts").data <:+:
      (ackRejectionMessage 3).data) :=
  ⟨⟨rfl, by decide⟩,
   ack_retry_then_timeout ⟨true, 5000, 3⟩ "m1" "news" "ev" 42 "s1" 0 rfl
     (by decide)⟩

/-! ## Rate limiter (`src/index.ts`, class `RateLimiter`)

One bucket (`limits.get(key)` for a fixed key); `check` consumes the wall
clock `now = Date.now()` and returns (blocked?, new bucket). -/

structure RateLimitEntry where
  count : Nat
  resetAt : Nat
deriving Repr, DecidableEq

structure RateLimitConfig where
  max : Nat
  window : Nat
deriving Repr, DecidableEq

/-- The constructor's defaulting (`config.max || 100`, `config.window ||
60000`): `0` is falsy in JS, so the effective cap is always at least 1. -/
def mkRateLimitConfig (max window : Nat) : RateLimitConfig :=
  { max := if max = 0 then 100 else max,
    window := if window = 0 then 60000 else window }

/-- `RateLimiter.check`: expired or missing entry installs
`(count = 1, resetAt = now + window)` and admits (`false`); a full bucket
blocks (`true`) without mutation; otherwise the count is incremented. -/
def check (cfg : RateLimitConfig) (now : Nat)
    (entry : Option RateLimitEntry) : Bool × Option RateLimitEntry :=
  match entry with
  | none => (false, some { count := 1, resetAt := now + cfg.window })
  | some e =>
      if e.resetAt < now then
        (false, some { count := 1, resetAt := now + cfg.window })
      else if cfg.max ≤ e.count then
        (true, some e)
      else
        (false, some { count := e.count + 1, resetAt := e.resetAt })

/-- Run `check` at each time in the list; returns the number of admitted
(non-blocked) checks and the final bucket. -/
def runChecks (cfg : RateLimitConfig) :
    Option RateLimitEntry → List Nat → Nat × Option RateLimitEntry
  | st, [] => (0, st)
  | st, t :: ts =>
      let r := check cfg t st
      let rest := runChecks cfg r.2 ts
      (rest.1 + (if r.1 then 0 else 1), rest.2)

theorem runChecks_blocked (cfg : RateLimitConfig) (e : RateLimitEntry)
    (hfull : cfg.max ≤ e.count) :
    ∀ ts : List Nat, (∀ t ∈ ts, t ≤ e.resetAt) →
      runChecks cfg (some e) ts = (0, some e) := by
  intro ts
  induction ts with
  | nil => intro _; rfl
  | cons t rest ih =>
      intro hts
      have ht : t ≤ e.resetAt := hts t (by simp)
      have hnlt : ¬ (e.resetAt < t) := by omega
      have hstep : check cfg t (some e) = (true, some e) := by
        simp [check, hnlt, hfull]
      show (let r := check cfg t (some e)
            let rest2 := runChecks cfg r.2 rest
            (rest2.1 + (if r.1 then 0 else 1), rest2.2)) = (0, some e)
      rw [hstep]
      simp [ih (fun x hx => hts x (by simp [hx]))]

theorem runChecks_count (cfg : RateLimitConfig) (r0 : Nat) :
    ∀ (ts : List Nat) (c : Nat), 1 ≤ c → c ≤ cfg.max →
      (∀ t ∈ ts, t ≤ r0) →
      runChecks cfg (some { count := c, resetAt := r0 }) ts =
        (min ts.length (cfg.max - c),
         some { count := c + min ts.length (cfg.max - c), resetAt := r0 }) := by
  intro ts
  induction ts with
  | nil =>
      intro c _ _ _
      simp [runChecks]
  | cons t rest ih =>
      intro c hc1 hcm hts
      have ht : t ≤ r0 := hts t (by simp)
      by_cases hfull : cfg.max ≤ c
      · have hceq : c = cfg.max := le_antisymm hcm hfull
        rw [runChecks_blocked cfg _ (by simp [hceq]) _ hts]
        have : cfg.max - c = 0 := by omega
        simp [this]
      · have hnlt : ¬ (r0 < t) := by omega
        have hstep : check cfg t (some { count := c, resetAt := r0 }) =
            (false, some { count := c + 1, resetAt := r0 }) := by
          simp [check, hnlt, hfull]
        show (let r := check cfg t (some { count := c, resetAt := r0 })
              let rest2 := runChecks cfg r.2 rest
              (rest2.1 + (if r.1 then 0 else 1), rest2.2)) = _
        rw [hstep]
        simp only
        rw [ih (c + 1) (by omega) (by omega)
          (fun x hx => hts x (by simp [hx]))]
        have h1 : min rest.length (cfg.max - (c + 1)) + 1 =
            min (rest.length + 1) (cfg.max - c) := by omega
        have h2 : c + 1 + min rest.length (cfg.max - (c + 1)) =
            c + min (rest.length + 1) (cfg.max - c) := by omega
        simp [h1, h2]

/-- C8: the branch behaviour of `RateLimiter.check` exactly as specified,
and its consequences: a fresh window admits `min (number of checks) N`
messages (so at most `N` per window), and once the bucket is full every
check strictly before the reset instant blocks without mutating the
bucket. -/
theorem rate_limiter_window (cfg : RateLimitConfig) (hmax : 1 ≤ cfg.max) :
    (∀ now, check cfg now none =
      (false, some { count := 1, resetAt := now + cfg.window })) ∧
    (∀ now e, e.resetAt < now → check cfg now (some e) =
      (false, some { count := 1, resetAt := now + cfg.window })) ∧
    (∀ now e, now ≤ e.resetAt → cfg.max ≤ e.count →
      check cfg now (some e) = (true, some e)) ∧
    (∀ now e, now ≤ e.resetAt → e.count < cfg.max →
      check cfg now (some e) =
        (false, some { count := e.count + 1, resetAt := e.resetAt })) ∧
    (∀ (t0 : Nat) (ts : List Nat), (∀ t ∈ ts, t ≤ t0 + cfg.window) →
      runChecks cfg none (t0 :: ts) =
        (min (ts.length + 1) cfg.max,
         some { count := min (ts.length + 1) cfg.max,
                resetAt := t0 + cfg.window })) ∧
    (∀ e, cfg.max ≤ e.count → ∀ ts : List Nat, (∀ t ∈ ts, t < e.resetAt) →
      runChecks cfg (some e) ts = (0, some e)) := by
  refine ⟨fun now => rfl, ?_, ?_, ?_, ?_, ?_⟩
  · intro now e hexp
    simp [check, hexp]
  · intro now e hin hfull
    have hnlt : ¬ (e.resetAt < now) := by omega
    simp [check, hnlt, hfull]
  · intro now e hin hlt
    have hnlt : ¬ (e.resetAt < now) := by omega
    have hnle : ¬ (cfg.max ≤ e.count) := by omega
    simp [check, hnlt, hnle]
  · intro t0 ts hts
    show (let r := check cfg t0 none
          let rest2 := runChecks cfg r.2 ts
          (rest2.1 + (if r.1 then 0 else 1), rest2.2)) = _
    have hstep : check cfg t0 none =
        (false, some { count := 1, resetAt := t0 + cfg.window }) := rfl
    rw [hstep]
    simp only
    rw [runChecks_count cfg (t0 + cfg.window) ts 1 (by omega) hmax hts]
    have h1 : min ts.length (cfg.max - 1) + 1 =
        min (ts.length + 1) cfg.max := by omega
    have h2 : 1 + min ts.length (cfg.max - 1) =
        min (ts.length + 1) cfg.max := by omega
    simp [h1, h2]
  · intro e hfull ts hts
    exact runChecks_blocked cfg e hfull ts
      (fun t htm => Nat.le_of_lt (hts t htm))

/-- C8 (witness): `max = 3`, `window = 1000` (the configuration of spec
scenario S6), built through the constructor defaulting. -/
theorem rate_limiter_window_witness :
    1 ≤ (mkRateLimitConfig 3 1000).max ∧
    (∀ now, check (mkRateLimitConfig 3 1000) now none =
      (false, some { count := 1, resetAt := now + (mkRateLimitConfig 3 1000).window })) :=
  ⟨by decide, (rate_limiter_window (mkRateLimitConfig 3 1000) (by decide)).1⟩

/-! ## Security manager sanitizer (`src/index.ts`, `SecurityManager.sanitize`)

JSON-like payloads, with strings as character lists.  Each chained
`.replace(/x/g, "ent")` with a single-character pattern is global
single-character replacement, i.e. a character-wise expansion. -/

mutual
inductive JsVal where
  | str (s : List Char)
  | num (n : Int)
  | boolVal (b : Bool)
  | nullVal
  | arr (items : JsArr)
  | obj (fields : JsObj)
inductive JsArr where
  | nilA
  | consA (head : JsVal) (tail : JsArr)
inductive JsObj where
  | nilO
  | consO (key : String) (value : JsVal) (tail : JsObj)
end

/-- Global single-character replacement (`String.prototype.replace` with a
one-character global regex). -/
def repl (c : Char) (r : List Char) : List Char → List Char
  | [] => []
  | a :: s => (if a = c then r else [a]) ++ repl c r s

/-- The five chained replacements of `SecurityManager.sanitize`, applied in
source order: `<`, `>`, `"`, `\x27`, `/`. -/
def sanitizeChars (s : List Char) : List Char :=
  repl '/' "&#x2F;".data
    (repl '\'' "&#x27;".data
      (repl '\"' "&quot;".data
        (repl '>' "&gt;".data
          (repl '<' "&lt;".data s))))

mutual
/-- The recursive walk of `SecurityManager.sanitize` (strings escaped,
arrays mapped, objects mapped over values, other leaves preserved). -/
def sanitizeVal : JsVal → JsVal
  | .str s => .str (sanitizeChars s)
  | .num n => .num n
  | .boolVal b => .boolVal b
  | .nullVal => .nullVal
  | .arr items => .arr (sanitizeArr items)
  | .obj fields => .obj (sanitizeObj fields)
def sanitizeArr : JsArr → JsArr
  | .nilA => .nilA
  | .consA h t => .consA (sanitizeVal h) (sanitizeArr t)
def sanitizeObj : JsObj → JsObj
  | .nilO => .nilO
  | .consO k v t => .consO k (sanitizeVal v) (sanitizeObj t)
end

/-- `SecurityManager.sanitize`, including the `sanitizeMessages` gate. -/
def sanitize (sanitizeMessages : Bool) (v : JsVal) : JsVal :=
  if sanitizeMessages then sanitizeVal v else v

theorem repl_of_not_mem {c : Char} {r s : List Char}
    (h : ∀ a ∈ s, a ≠ c) : repl c r s = s := by
  induction s with
  | nil => rfl
  | cons a t ih =>
      have ha : a ≠ c := h a (by simp)
      simp only [repl, if_neg ha]
      rw [ih (fun x hx => h x (by simp [hx]))]
      rfl

theorem mem_repl {c : Char} {r s : List Char} {a : Char}
    (h : a ∈ repl c r s) : a ∈ r ∨ (a ∈ s ∧ a ≠ c) := by
  induction s with
  | nil => exact absurd h (by simp [repl])
  | cons b t ih =>
      simp only [repl, List.mem_append] at h
      rcases h with h | h
      · by_cases hb : b = c
        · rw [if_pos hb] at h
          exact Or.inl h
        · rw [if_neg hb] at h
          simp only [List.mem_singleton] at h
          subst h
          exact Or.inr ⟨by simp, hb⟩
      · rcases ih h with h2 | ⟨h2, h3⟩
        · exact Or.inl h2
        · exact Or.inr ⟨by simp [h2], h3⟩

theorem sanitizeChars_no_specials (s : List Char) :
    ∀ a ∈ sanitizeChars s,
      a ≠ '<' ∧ a ≠ '>' ∧ a ≠ '\"' ∧ a ≠ '\'' ∧ a ≠ '/' := by
  have e1 : ∀ x ∈ "&lt;".data,
      x ≠ '<' ∧ x ≠ '>' ∧ x ≠ '\"' ∧ x ≠ '\'' ∧ x ≠ '/' := by decide
  have e2 : ∀ x ∈ "&gt;".data,
      x ≠ '<' ∧ x ≠ '>' ∧ x ≠ '\"' ∧ x ≠ '\'' ∧ x ≠ '/' := by decide
  have e3 : ∀ x ∈ "&quot;".data,
      x ≠ '<' ∧ x ≠ '>' ∧ x ≠ '\"' ∧ x ≠ '\'' ∧ x ≠ '/' := by decide
  have e4 : ∀ x ∈ "&#x27;".data,
      x ≠ '<' ∧ x ≠ '>' ∧ x ≠ '\"' ∧ x ≠ '\'' ∧ x ≠ '/' := by decide
  have e5 : ∀ x ∈ "&#x2F;".data,
      x ≠ '<' ∧ x ≠ '>' ∧ x ≠ '\"' ∧ x ≠ '\'' ∧ x ≠ '/' := by decide
  intro a ha
  unfold sanitizeChars at ha
  rcases mem_repl ha with h5 | ⟨h5, hne5⟩
  · exact e5 a h5
  rcases mem_repl h5 with h4 | ⟨h4, hne4⟩
  · exact e4 a h4
  rcases mem_repl h4 with h3 | ⟨h3, hne3⟩
  · exact e3 a h3
  rcases mem_repl h3 with h2 | ⟨h2, hne2⟩
  · exact e2 a h2
  rcases mem_repl h2 with h1 | ⟨h1, hne1⟩
  · exact e1 a h1
  exact ⟨hne1, hne2, hne3, hne4, hne5⟩

theorem sanitizeChars_of_no_specials {t : List Char}
    (h : ∀ a ∈ t, a ≠ '<' ∧ a ≠ '>' ∧ a ≠ '\"' ∧ a ≠ '\'' ∧ a ≠ '/') :
    sanitizeChars t = t := by
  unfold sanitizeChars
  rw [repl_of_not_mem (fun a ha => (h a ha).1),
    repl_of_not_mem (fun a ha => (h a ha).2.1),
    repl_of_not_mem (fun a ha => (h a ha).2.2.1),
    repl_of_not_mem (fun a ha => (h a ha).2.2.2.1),
    repl_of_not_mem (fun a ha => (h a ha).2.2.2.2)]

theorem sanitizeChars_idem (s : List Char) :
    sanitizeChars (sanitizeChars s) = sanitizeChars s :=
  sanitizeChars_of_no_specials (sanitizeChars_no_specials s)

mutual
theorem sanitizeVal_idem : ∀ v : JsVal,
    sanitizeVal (sanitizeVal v) = sanitizeVal v
  | .str s => by simp [sanitizeVal, sanitizeChars_idem]
  | .num n => rfl
  | .boolVal b => rfl
  | .nullVal => rfl
  | .arr items => by simp [sanitizeVal, sanitizeArr_idem items]
  | .obj fields => by simp [sanitizeVal, sanitizeObj_idem fields]
theorem sanitizeArr_idem : ∀ l : JsArr,
    sanitizeArr (sanitizeArr l) = sanitizeArr l
  | .nilA => rfl
  | .consA h t => by
      simp [sanitizeArr, sanitizeVal_idem h, sanitizeArr_idem t]
theorem sanitizeObj_idem : ∀ o : JsObj,
    sanitizeObj (sanitizeObj o) = sanitizeObj o
  | .nilO => rfl
  | .consO k v t => by
      simp [sanitizeObj, sanitizeVal_idem v, sanitizeObj_idem t]
end

/-- C10: for every payload x, sanitize(sanitize(x)) = sanitize(x): the
sanitizer (replacing <, >, double quote, single quote and / in strings by
their HTML entity forms, recursing through arrays and objects, preserving
non-string leaves, and the identity when sanitization is disabled) is
idempotent. -/
theorem sanitize_idempotent (sanitizeMessages : Bool) (x : JsVal) :
    sanitize sanitizeMessages (sanitize sanitizeMessages x) =
      sanitize sanitizeMessages x := by
  cases sanitizeMessages with
  | false => simp [sanitize]
  | true => simp [sanitize, sanitizeVal_idem]

/-! ## Circuit breaker (`src/circuit-breaker.ts`, class `CircuitBreaker`)

Wall-clock instants are `Int` because the source computes
`Date.now() - failureWindow`.  The scheduled reset timer is modelled as the
instant at which `halfOpen` will fire. -/

inductive CircuitState where
  | CLOSED
  | OPEN
  | HALF_OPEN
deriving DecidableEq, Repr

structure CircuitBreakerConfig where
  failureThreshold : Nat
  failureWindow : Int
  resetTimeout : Int
  successThreshold : Nat
  timeout : Int
deriving Repr, DecidableEq

/-- The constructor defaults (`?? 5`, `?? 60000`, `?? 60000`, `?? 2`,
`?? 30000`). -/
def defaultCircuitBreakerConfig : CircuitBreakerConfig :=
  { failureThreshold := 5, failureWindow := 60000, resetTimeout := 60000,
    successThreshold := 2, timeout := 30000 }

structure CBState where
  state : CircuitState
  failures : Nat
  successes : Nat
  totalRequests : Nat
  lastFailureTime : Option Int
  lastSuccessTime : Option Int
  failureTimestamps : List Int
  resetTimerDeadline : Option Int
deriving Repr, DecidableEq

/-- `CircuitBreaker.open`: OPEN, clear successes, (re)schedule the
`halfOpen` transition for `now + resetTimeout`. -/
def openCircuit (cfg : CircuitBreakerConfig) (now : Int) (st : CBState) :
    CBState :=
  { st with
      state := .OPEN
      successes := 0
      resetTimerDeadline := some (now + cfg.resetTimeout) }

/-- `CircuitBreaker.halfOpen` (the reset-timer callback): HALF_OPEN with
successes, failures and the failure-timestamp list cleared. -/
def halfOpenCircuit (st : CBState) : CBState :=
  { st with
      state := .HALF_OPEN
      successes := 0
      failures := 0
      failureTimestamps := [] }

/-- `CircuitBreaker.close`. -/
def closeCircuit (st : CBState) : CBState :=
  { st with
      state := .CLOSED
      failures := 0
      successes := 0
      failureTimestamps := []
      resetTimerDeadline := none }

/-- `CircuitBreaker.cleanOldFailures`: keep timestamps strictly inside the
failure window (`ts > now - failureWindow`). -/
def cleanOldFailures (cfg : CircuitBreakerConfig) (now : Int)
    (ts : List Int) : List Int :=
  ts.filter (fun t => now - cfg.failureWindow < t)

/-- `CircuitBreaker.onFailure`: append the failure timestamp, prune by the
window, and open only when the in-window count reaches `failureThreshold`. -/
def onFailure (cfg : CircuitBreakerConfig) (now : Int) (st : CBState) :
    CBState :=
  let ts := cleanOldFailures cfg now (st.failureTimestamps ++ [now])
  let st1 := { st with
      failures := st.failures + 1
      lastFailureTime := some now
      failureTimestamps := ts }
  if cfg.failureThreshold ≤ ts.length then openCircuit cfg now st1 else st1

/-- `CircuitBreaker.onSuccess`. -/
def onSuccess (cfg : CircuitBreakerConfig) (now : Int) (st : CBState) :
    CBState :=
  let st1 := { st with
      failures := 0
      successes := st.successes + 1
      lastSuccessTime := some now }
  if st1.state = .HALF_OPEN ∧ cfg.successThreshold ≤ st1.successes then
    closeCircuit st1
  else st1

/-- Outcome of the wrapped operation under `executeWithTimeout`: success,
rejection, or the `timeout` racing promise winning. -/
inductive ExecOutcome where
  | success
  | failureOutcome
  | timedOut
deriving DecidableEq, Repr

/-- `CircuitBreaker.execute`: OPEN throws `CircuitBreakerError` (second
component `true`); otherwise the request is counted and both a rejection
and a timeout reach `onFailure` via the `catch` block. -/
def execute (cfg : CircuitBreakerConfig) (now : Int) (st : CBState)
    (outcome : ExecOutcome) : CBState × Bool :=
  if st.state = .OPEN then (st, true)
  else
    let st1 := { st with totalRequests := st.totalRequests + 1 }
    match outcome with
    | .success => (onSuccess cfg now st1, false)
    | .failureOutcome => (onFailure cfg now st1, false)
    | .timedOut => (onFailure cfg now st1, false)

/-- C6 (counterexample): with the default configuration
(`failureThreshold = 5`), a breaker that has just entered HALF_OPEN stays
HALF_OPEN after a single failed (timed-out) execution — it does not
transition back to OPEN, because `halfOpen` cleared the failure-timestamp
list and `onFailure` reopens only at `failureThreshold` in-window
failures. -/
theorem half_open_single_failure_stays_half_open :
    (execute defaultCircuitBreakerConfig 100000
        (halfOpenCircuit
          { state := .OPEN, failures := 5, successes := 0,
            totalRequests := 9, lastFailureTime := some 40000,
            lastSuccessTime := none,
            failureTimestamps := [39960, 39970, 39980, 39990, 40000],
            resetTimerDeadline := some 100000 })
        ExecOutcome.timedOut).1.state = CircuitState.HALF_OPEN ∧
    ¬ (execute defaultCircuitBreakerConfig 100000
        (halfOpenCircuit
          { state := .OPEN, failures := 5, successes := 0,
            totalRequests := 9, lastFailureTime := some 40000,
            lastSuccessTime := none,
            failureTimestamps := [39960, 39970, 39980, 39990, 40000],
            resetTimerDeadline := some 100000 })
        ExecOutcome.timedOut).1.state = CircuitState.OPEN := by
  constructor
  · decide
  · decide

/-- C6 (amended): in HALF_OPEN (where the failure-timestamp list was
cleared on entry), a failed or timed-out execution transitions the breaker
back to OPEN if and only if `failureThreshold ≤ 1`; when it does reopen,
the reset timer is restarted for `now + resetTimeout`; otherwise the
breaker stays HALF_OPEN.  (Stated for a positive `failureWindow`, as the
single fresh failure timestamp must survive its own window check.) -/
theorem half_open_failure_reopens_iff_threshold_le_one
    (cfg : CircuitBreakerConfig) (now : Int) (st : CBState)
    (oc : ExecOutcome) (hst : st.state = .HALF_OPEN)
    (hts : st.failureTimestamps = []) (hw : 0 < cfg.failureWindow)
    (hoc : oc = .failureOutcome ∨ oc = .timedOut) :
    ((execute cfg now st oc).1.state = .OPEN ↔ cfg.failureThreshold ≤ 1) ∧
    (execute cfg now st oc).2 = false ∧
    (cfg.failureThreshold ≤ 1 →
      (execute cfg now st oc).1.resetTimerDeadline =
        some (now + cfg.resetTimeout)) ∧
    (¬ cfg.failureThreshold ≤ 1 →
      (execute cfg now st oc).1.state = .HALF_OPEN) := by
  have hnotOpen : ¬ st.state = .OPEN := by
    rw [hst]
    intro h
    cases h
  have hts1 : cleanOldFailures cfg now (st.failureTimestamps ++ [now]) =
      [now] := by
    rw [hts]
    unfold cleanOldFailures
    simp only [List.nil_append, List.filter]
    rw [decide_eq_true (by omega : now - cfg.failureWindow < now)]
  by_cases hth : cfg.failureThreshold ≤ 1
  · have hexec : execute cfg now st oc =
        (openCircuit cfg now
          { st with
              totalRequests := st.totalRequests + 1
              failures := st.failures + 1
              lastFailureTime := some now
              failureTimestamps := [now] }, false) := by
      rcases hoc with rfl | rfl <;>
        simp [execute, hnotOpen, onFailure, hts1, hth]
    rw [hexec]
    exact ⟨⟨fun _ => hth, fun _ => rfl⟩, rfl, fun _ => rfl,
      fun hc => absurd hth hc⟩
  · have hexec : execute cfg now st oc =
        ({ st with
            totalRequests := st.totalRequests + 1
            failures := st.failures + 1
            lastFailureTime := some now
            failureTimestamps := [now] }, false) := by
      rcases hoc with rfl | rfl <;>
        simp [execute, hnotOpen, onFailure, hts1, hth]
    rw [hexec]
    refine ⟨⟨fun hopen => ?_, fun hc => absurd hc hth⟩, rfl,
      fun hc => absurd hc hth, fun _ => hst⟩
    have h2 : st.state = CircuitState.OPEN := hopen
    rw [hst] at h2
    cases h2

/-- Configuration with `failureThreshold = 1` used by the C6 witness. -/
def cbThresholdOneConfig : CircuitBreakerConfig :=
  { failureThreshold := 1, failureWindow := 60000, resetTimeout := 60000,
    successThreshold := 2, timeout := 30000 }

/-- A breaker state that has just entered HALF_OPEN, used by the C6
witness. -/
def cbHalfOpenState : CBState :=
  halfOpenCircuit
    { state := .OPEN, failures := 1, successes := 0, totalRequests := 3,
      lastFailureTime := some 0, lastSuccessTime := none,
      failureTimestamps := [0], resetTimerDeadline := some 60000 }

/-- C6 (witness): with `failureThreshold = 1` a single timed-out execution
in HALF_OPEN does reopen the breaker. -/
theorem half_open_failure_reopens_witness :
    (cbHalfOpenState.state = .HALF_OPEN ∧
      cbHalfOpenState.failureTimestamps = [] ∧
      (0 : Int) < cbThresholdOneConfig.failureWindow) ∧
    ((execute cbThresholdOneConfig 70000 cbHalfOpenState
        ExecOutcome.timedOut).1.state = .OPEN ↔
      cbThresholdOneConfig.failureThreshold ≤ 1) :=
  ⟨⟨rfl, rfl, by decide⟩,
   (half_open_failure_reopens_iff_threshold_le_one cbThresholdOneConfig
      70000 cbHalfOpenState ExecOutcome.timedOut rfl rfl (by decide)
      (Or.inr rfl)).1⟩

/-! ## Relay adapter and cross-node broadcast path
(`src/redis-adapter.ts`, `src/server.ts` lines 956-962 and 1597-1639)

Envelope payloads are opaque (`δ`).  `handleRedisMessage` is modelled on the
result of `JSON.parse` (`none` = the parse threw, caught and logged); it
returns the list of envelopes handed to each registered handler. -/

inductive RelayMsgType where
  | broadcastType
  | subscribeType
  | unsubscribeType
  | presenceType
deriving DecidableEq, Repr

/-- `RedisMessage` of `src/redis-adapter.ts` (`socketId` and `serverId` are
optional fields). -/
structure RedisMessage (δ : Type) where
  type : RelayMsgType
  channel : String
  event : String
  data : δ
  socketId : Option String
  serverId : Option String
deriving DecidableEq, Repr

/-- `RedisAdapter.broadcast`: the single envelope published to the
`{prefix}channel` bus, stamped with this node's `serverId` and carrying the
excluded socket id. -/
def redisAdapterBroadcast {δ : Type} (selfServerId : String)
    (channel event : String) (d : δ) (excludeSocketId : Option String) :
    RedisMessage δ :=
  { type := .broadcastType, channel := channel, event := event, data := d,
    socketId := excludeSocketId, serverId := some selfServerId }

/-- `RedisAdapter.handleRedisMessage`: a malformed frame is swallowed; an
envelope whose `serverId` equals this node's id is discarded before any
registered handler runs; otherwise every handler receives it (the
orchestrator registers exactly one). -/
def handleRedisMessage {δ : Type} (selfServerId : String)
    (parsed : Option (RedisMessage δ)) : List (RedisMessage δ) :=
  match parsed with
  | none => []
  | some m => if m.serverId = some selfServerId then [] else [m]

/-- The parts of `BroadcastServer` state the broadcast path reads. -/
structure ServerSt where
  subscribers : String → List String
  connections : List String
  redisConfigured : Bool
  serverId : String

/-- What one `BroadcastServer.broadcast` call emits: the socket ids sent
the frame locally, and the envelopes published to the relay bus. -/
structure BroadcastEffect (δ : Type) where
  localFrames : List String
  relayPublishes : List (RedisMessage δ)
deriving DecidableEq, Repr

/-- `BroadcastServer.broadcast`: fan out locally (with exclusion via the
connection table, or a topic publish to all subscribers), then — whenever a
relay adapter is configured — publish one envelope to the bus. -/
def serverBroadcast {δ : Type} (srv : ServerSt) (channel event : String)
    (d : δ) (excludeSocketId : Option String) : BroadcastEffect δ :=
  { localFrames :=
      match excludeSocketId with
      | some ex =>
          (srv.subscribers channel).filter
            (fun sid => sid ≠ ex ∧ sid ∈ srv.connections)
      | none => srv.subscribers channel,
    relayPublishes :=
      if srv.redisConfigured then
        [redisAdapterBroadcast srv.serverId channel event d excludeSocketId]
      else [] }

/-- The `redis.onMessage` handler registered in `BroadcastServer.start`
(lines 957-962): for a `broadcast` envelope it re-runs `this.broadcast`
with the envelope's fields, excluding the originating socket. -/
def onRelayMessage {δ : Type} (srv : ServerSt) (m : RedisMessage δ) :
    BroadcastEffect δ :=
  if m.type = .broadcastType then
    serverBroadcast srv m.channel m.event m.data m.socketId
  else
    { localFrames := [], relayPublishes := [] }

/-- One inbound relay frame end to end: the loopback guard in the adapter,
then the orchestrator handler on everything that passes it. -/
def handleInboundRelay {δ : Type} (srv : ServerSt)
    (parsed : Option (RedisMessage δ)) : List (BroadcastEffect δ) :=
  (handleRedisMessage srv.serverId parsed).map (onRelayMessage srv)

/-- Total number of new relay publishes caused by handling one inbound
frame. -/
def relayPublishCount {δ : Type} (effects : List (BroadcastEffect δ)) : Nat :=
  (effects.map (fun e => e.relayPublishes.length)).sum

/-- C2: for every inbound relay envelope whose `serverId` equals this
node's own server id, the envelope is discarded before any registered
handler runs, so the node performs zero local broadcasts (no handler
invocations, hence no local frames and no new publishes). -/
theorem loopback_envelope_discarded {δ : Type} (srv : ServerSt)
    (m : RedisMessage δ) (h : m.serverId = some srv.serverId) :
    handleRedisMessage srv.serverId (some m) = [] ∧
    handleInboundRelay srv (some m) = [] := by
  have h1 : handleRedisMessage srv.serverId (some m) = [] := by
    simp [handleRedisMessage, h]
  exact ⟨h1, by simp [handleInboundRelay, h1]⟩

/-- The node used by the C1 and C2 concrete inputs: one subscriber
`sock-b` on channel `x`, relay configured, server id `node-2`. -/
def relayDemoNode : ServerSt :=
  { subscribers := fun c => if c = "x" then ["sock-b"] else []
    connections := ["sock-b"]
    redisConfigured := true
    serverId := "node-2" }

/-- An envelope that this node itself published (serverId = `node-2`). -/
def relayLoopbackMsg : RedisMessage Unit :=
  { type := .broadcastType
    channel := "x"
    event := "e"
    data := ()
    socketId := none
    serverId := some "node-2" }

/-- An envelope published by a peer node (`node-1`), excluding the
originating socket `sock-a`. -/
def relayPeerMsg : RedisMessage Unit :=
  { type := .broadcastType
    channel := "x"
    event := "e"
    data := ()
    socketId := some "sock-a"
    serverId := some "node-1" }

/-- C2 (witness). -/
theorem loopback_envelope_discarded_witness :
    relayLoopbackMsg.serverId = some relayDemoNode.serverId ∧
    (handleRedisMessage relayDemoNode.serverId (some relayLoopbackMsg) = [] ∧
      handleInboundRelay relayDemoNode (some relayLoopbackMsg) = []) :=
  ⟨rfl, loopback_envelope_discarded relayDemoNode relayLoopbackMsg rfl⟩

/-- C1: handling a broadcast envelope received from a peer node re-runs
`broadcast`, and `broadcast` unconditionally republishes to the relay bus
when the adapter is configured: at this concrete input one (not zero) new
relay publish results, and the republished envelope is stamped with this
node's own server id (so the peer will accept it back: an echo loop rather
than a loopback-safe local fan-out). -/
theorem inbound_relay_envelope_republished :
    relayPublishCount (handleInboundRelay relayDemoNode (some relayPeerMsg)) =
      1 ∧
    handleInboundRelay relayDemoNode (some relayPeerMsg) =
      [{ localFrames := ["sock-b"]
         relayPublishes := [{ type := .broadcastType
                              channel := "x"
                              event := "e"
                              data := ()
                              socketId := some "sock-a"
                              serverId := some "node-2" }] }] := by
  constructor
  · decide
  · decide

/-! ## Pattern matcher (`src/channels.ts`, `ChannelManager.patternToRegex`)

A literal template is a sequence of literal runs and `{name}` segments.
`patternToRegex` escapes the regex metacharacters of the literal runs
(so they match themselves) and replaces every `\x7bname\x7d` with the
replacement string `[^.]+` — a character class with no parentheses, so the
name is dropped and the produced regex contains no capturing group.  The
regex is anchored on both ends (`^...$`), which is the exact-concatenation
semantics of `MatchesWithGroups` below.  `ChannelManager.authorize` only
ever calls `regex.test(channelName)` and passes `channelData` (not
extracted parameters) to the callback. -/

inductive TemplatePart where
  | litPart (s : List Char)
  | varPart (name : String)
deriving DecidableEq, Repr

inductive RegexSeg where
  | litSeg (s : List Char)
  | classSeg
  | namedGroupSeg (name : String)
deriving DecidableEq, Repr

/-- `ChannelManager.patternToRegex`: literal runs match themselves, each
`\x7bname\x7d` becomes the non-capturing class `[^.]+`. -/
def patternToRegex (t : List TemplatePart) : List RegexSeg :=
  t.map (fun p =>
    match p with
    | .litPart s => .litSeg s
    | .varPart _ => .classSeg)

/-- The compiler the spec describes instead ("replacing each `\x7bname\x7d`
with a capturing group matching `[^.]+`"), stated from the spec's words for
comparison with `patternToRegex`. -/
def specPatternToRegex (t : List TemplatePart) : List RegexSeg :=
  t.map (fun p =>
    match p with
    | .litPart s => .litSeg s
    | .varPart n => .namedGroupSeg n)

/-- The named capturing groups a compiled regex exposes, in order. -/
def capturedNames : List RegexSeg → List String
  | [] => []
  | .litSeg _ :: rest => capturedNames rest
  | .classSeg :: rest => capturedNames rest
  | .namedGroupSeg n :: rest => n :: capturedNames rest

/-- Anchored match of a segment-concatenation regex, together with the
group mapping the match exposes: a literal consumes exactly itself, `[^.]+`
consumes one or more non-dot characters and records nothing, and a named
group consumes the same language while recording its segment. -/
inductive MatchesWithGroups :
    List RegexSeg → List Char → List (String × List Char) → Prop where
  | nil : MatchesWithGroups [] [] []
  | lit (cs : List Char) (rest : List RegexSeg) (s : List Char)
      (g : List (String × List Char)) :
      MatchesWithGroups rest s g →
      MatchesWithGroups (.litSeg cs :: rest) (cs ++ s) g
  | wild (w : List Char) (rest : List RegexSeg) (s : List Char)
      (g : List (String × List Char)) :
      w ≠ [] → (∀ c ∈ w, c ≠ '.') →
      MatchesWithGroups rest s g →
      MatchesWithGroups (.classSeg :: rest) (w ++ s) g
  | group (name : String) (w : List Char) (rest : List RegexSeg)
      (s : List Char) (g : List (String × List Char)) :
      w ≠ [] → (∀ c ∈ w, c ≠ '.') →
      MatchesWithGroups rest s g →
      MatchesWithGroups (.namedGroupSeg name :: rest) (w ++ s)
        ((name, w) :: g)

/-- Substitution σ applied to the template. -/
def subst (assign : String → List Char) : List TemplatePart → List Char
  | [] => []
  | .litPart s :: rest => s ++ subst assign rest
  | .varPart n :: rest => assign n ++ subst assign rest

/-- σ conforms: every name gets a non-empty dot-free segment. -/
def conformingB (assign : String → List Char) : List TemplatePart → Bool
  | [] => true
  | .litPart _ :: rest => conformingB assign rest
  | .varPart n :: rest =>
      (!(assign n).isEmpty && (assign n).all (fun c => c != '.')) &&
        conformingB assign rest

/-- σ restricted to the names of the template, in template order. -/
def varAssignments (assign : String → List Char) :
    List TemplatePart → List (String × List Char)
  | [] => []
  | .litPart _ :: rest => varAssignments assign rest
  | .varPart n :: rest => (n, assign n) :: varAssignments assign rest

/-- The keys of any successful match's group mapping are exactly the
regex's captured names. -/
theorem matchesWithGroups_keys {r : List RegexSeg} {s : List Char}
    {g : List (String × List Char)} (h : MatchesWithGroups r s g) :
    g.map Prod.fst = capturedNames r := by
  induction h with
  | nil => rfl
  | lit cs rest s g _ ih => simpa [capturedNames] using ih
  | wild w rest s g _ _ _ ih => simpa [capturedNames] using ih
  | group name w rest s g _ _ _ ih => simpa [capturedNames] using ih

theorem conformingB_var {assign : String → List Char} {n : String}
    {rest : List TemplatePart}
    (h : conformingB assign (.varPart n :: rest) = true) :
    assign n ≠ [] ∧ (∀ c ∈ assign n, c ≠ '.') ∧
      conformingB assign rest = true := by
  simp only [conformingB, Bool.and_eq_true, Bool.not_eq_eq_eq_not,
    Bool.not_true, List.all_eq_true] at h
  refine ⟨?_, ?_, h.2⟩
  · intro hx
    rcases h.1.1 with h11
    rw [hx] at h11
    exact absurd h11 (by simp)
  · intro c hc
    have := h.1.2 c hc
    simpa using this

/-- The matcher compiled from the source accepts σ(T), exposing the empty
group mapping. -/
theorem patternToRegex_matches_subst (assign : String → List Char) :
    ∀ t : List TemplatePart, conformingB assign t = true →
      MatchesWithGroups (patternToRegex t) (subst assign t) [] := by
  intro t
  induction t with
  | nil => intro _; exact .nil
  | cons p rest ih =>
      intro h
      cases p with
      | litPart s =>
          have h2 : conformingB assign rest = true := by
            simpa [conformingB] using h
          exact .lit s _ _ _ (ih h2)
      | varPart n =>
          rcases conformingB_var h with ⟨hne, hnd, h2⟩
          exact .wild (assign n) _ _ _ hne hnd (ih h2)

/-- The compiler the spec describes would additionally return σ. -/
theorem specPatternToRegex_matches_subst (assign : String → List Char) :
    ∀ t : List TemplatePart, conformingB assign t = true →
      MatchesWithGroups (specPatternToRegex t) (subst assign t)
        (varAssignments assign t) := by
  intro t
  induction t with
  | nil => intro _; exact .nil
  | cons p rest ih =>
      intro h
      cases p with
      | litPart s =>
          have h2 : conformingB assign rest = true := by
            simpa [conformingB] using h
          exact .lit s _ _ _ (ih h2)
      | varPart n =>
          rcases conformingB_var h with ⟨hne, hnd, h2⟩
          exact .group n (assign n) _ _ _ hne hnd (ih h2)

/-- The template `orders.\x7borderId\x7d` of the source doc comment. -/
def ordersTemplate : List TemplatePart :=
  [.litPart "orders.".data, .varPart "orderId"]

/-- C9 (counterexample): for the template `orders.\x7borderId\x7d` and
σ = (orderId ↦ "5"), the regex compiled by `patternToRegex` exposes no
capturing group at all (while the spec's compiler would expose
`orderId`), and the mapping σ is not a possible extraction result of the
compiled regex on σ(T) = "orders.5" — extraction cannot return σ. -/
theorem pattern_extraction_never_returns_sigma :
    capturedNames (patternToRegex ordersTemplate) = [] ∧
    capturedNames (specPatternToRegex ordersTemplate) = ["orderId"] ∧
    ¬ MatchesWithGroups (patternToRegex ordersTemplate) "orders.5".data
        [("orderId", ['5'])] := by
  refine ⟨rfl, rfl, ?_⟩
  intro h
  have hk := matchesWithGroups_keys h
  simp [patternToRegex, ordersTemplate, capturedNames] at hk

/-- C9 (amended): for every literal template T with \x7bname\x7d segments and
every conforming substitution σ (non-empty dot-free segments), the matcher
compiled from T by `patternToRegex` accepts σ(T) as an anchored full-string
match — but its group mapping is empty, because `[^.]+` carries no
capturing group, so extraction returns the empty mapping rather than σ
(the compiler the spec describes, `specPatternToRegex`, would return σ). -/
theorem pattern_roundtrip_accepts_without_groups
    (assign : String → List Char) (t : List TemplatePart)
    (h : conformingB assign t = true) :
    MatchesWithGroups (patternToRegex t) (subst assign t) [] ∧
    capturedNames (patternToRegex t) = [] ∧
    MatchesWithGroups (specPatternToRegex t) (subst assign t)
      (varAssignments assign t) := by
  refine ⟨patternToRegex_matches_subst assign t h, ?_,
    specPatternToRegex_matches_subst assign t h⟩
  have hk := matchesWithGroups_keys (patternToRegex_matches_subst assign t h)
  simpa using hk.symm

/-- C9 (witness): the template `orders.\x7borderId\x7d` with
σ(orderId) = "5". -/
theorem pattern_roundtrip_accepts_without_groups_witness :
    conformingB (fun _ => ['5']) ordersTemplate = true ∧
    (MatchesWithGroups (patternToRegex ordersTemplate)
        (subst (fun _ => ['5']) ordersTemplate) [] ∧
      capturedNames (patternToRegex ordersTemplate) = [] ∧
      MatchesWithGroups (specPatternToRegex ordersTemplate)
        (subst (fun _ => ['5']) ordersTemplate)
        (varAssignments (fun _ => ['5']) ordersTemplate)) :=
  ⟨by decide,
   pattern_roundtrip_accepts_without_groups (fun _ => ['5']) ordersTemplate
     (by decide)⟩

end TsBroadcasting

